import Mathlib

/-!
Verification development for apdfhelper (src/apdfhelper.py).

The program's line-oriented string processing is embedded over `List Char`
("Chars" below).  Python operations used by the source (str.split, int(),
slicing with negative bounds, str.lstrip, dict assignment, list stacks)
are modelled faithfully; document-store (pikepdf) behaviour that the spec
declares out of scope is modelled from the spec's capability interface and
marked as such in doc comments.
-/

abbrev Chars := List Char

/-- The character list of a source line (Python strings are sequences of
characters; we work on the character list). -/
def lineOf (s : String) : Chars := s.data

/-- Python `s.split(sep)` for a one-character separator: splits at every
occurrence, keeping empty fields, and always returns at least one field. -/
def pySplit : Chars → Char → List Chars
  | [], _ => [[]]
  | c :: r, sep =>
    match pySplit r sep with
    | [] => [[]]
    | t :: ts => if c = sep then [] :: t :: ts else (c :: t) :: ts

/-- Characters stripped by Python `int()` (surrounding ASCII whitespace). -/
def isPySpace (c : Char) : Bool :=
  c = ' ' || c = '\t' || c = '\n' || c = '\x0d' || c = '\x0b' || c = '\x0c'

/-- Strip surrounding whitespace, as Python `int()` does before parsing. -/
def stripWs (s : Chars) : Chars :=
  ((s.dropWhile isPySpace).reverse.dropWhile isPySpace).reverse

/-- Digit-run value for Python `int()`: decimal digits with single
underscores allowed between digits (Python 3.6+ literal rule). -/
def digitsValAux : Nat → Chars → Option Nat
  | acc, [] => some acc
  | acc, '_' :: c :: r =>
    if c.isDigit then digitsValAux (acc * 10 + (c.toNat - 48)) r else none
  | _, '_' :: [] => none
  | acc, c :: r =>
    if c.isDigit then digitsValAux (acc * 10 + (c.toNat - 48)) r else none

def digitsVal : Chars → Option Nat
  | [] => none
  | c :: r => if c.isDigit then digitsValAux (c.toNat - 48) r else none

/-- Python `int(s)`: optional surrounding whitespace, optional sign,
then a digit run; anything else raises ValueError (modelled as `none`). -/
def pyInt (s : Chars) : Option Int :=
  match stripWs s with
  | '-' :: rest => (digitsVal rest).map (fun n => -(n : Int))
  | '+' :: rest => (digitsVal rest).map (fun n => (n : Int))
  | rest => (digitsVal rest).map (fun n => (n : Int))

/-- Python `str(i)` for an int, as a character list. -/
def intChars (i : Int) : Chars :=
  if i < 0 then '-' :: Nat.toDigits 10 (-i).toNat else Nat.toDigits 10 i.toNat

/-- Python slice `s[a : b]` with a non-negative start and a possibly
negative end (negative ends count from the end; out-of-range clamps). -/
def pySlice (s : Chars) (a : Nat) (b : Int) : Chars :=
  let n : Int := s.length
  let b1 : Int := if b < 0 then b + n else b
  let b2 : Nat := if b1 ≤ 0 then 0 else min b1.toNat s.length
  (s.take b2).drop a

/-- Python dict assignment `d[k] = v` on an insertion-ordered association
list: an existing key keeps its position and gets the new value, a new key
is appended. -/
def pyDictSet {κ ν : Type} [DecidableEq κ] : List (κ × ν) → κ → ν → List (κ × ν)
  | [], k, v => [(k, v)]
  | (k0, v0) :: rest, k, v =>
    if k0 = k then (k, v) :: rest else (k0, v0) :: pyDictSet rest k v

/-- Python dict lookup `d.get(k)` / `k in d`. -/
def dictGet {κ ν : Type} [DecidableEq κ] : List (κ × ν) → κ → Option ν
  | [], _ => none
  | (k0, v0) :: rest, k => if k0 = k then some v0 else dictGet rest k

/-! ## read_toc (src/apdfhelper.py lines 33-74)

State of the parse: the `pages` dict, the `titles` list, the current
indentation `level` and the `parents` stack (a Python list used LIFO via
append/pop; modelled with the head as the top). -/

structure TocState where
  pages : List (Int × Chars)
  titles : List (Chars × Nat × Int)
  level : Nat
  parents : List Nat
deriving DecidableEq

/-- The `while True: level = parents.pop(); if level == indentation: break`
loop: pops until the popped value equals the indentation; an exhausted
stack raises IndexError (flag `false`), leaving `level` at the last popped
value (or the entering value when no pop succeeded). -/
def popLevel : List Nat → Nat → Nat → Nat × List Nat × Bool
  | [], _, lvl => (lvl, [], false)
  | p :: rest, ind, _ =>
    if p = ind then (p, rest, true) else popLevel rest ind p

/-- `pages[index] = title; titles.append((title, level, index))` with the
already-adjusted level. -/
def emitEntry (st : TocState) (title : Chars) (index : Int) : TocState :=
  { st with pages := pyDictSet st.pages index title,
            titles := st.titles ++ [(title, st.level, index)] }

/-- One iteration of read_toc's line loop.  `none` models an uncaught
exception: the line's int() failing (ValueError) is caught and reported,
but the diagnostic itself evaluates `line[0]`, which raises an uncaught
IndexError when the line is empty.  A failing `parents.pop()` (IndexError)
is caught: the line is skipped with the mutated level/parents kept. -/
def processLine (st : TocState) (line : Chars) : Option TocState :=
  let toks := pySplit line ' '
  let lastTok := toks.reverse.headD []
  match pyInt lastTok with
  | none => if line = [] then none else some st
  | some index =>
    let indentation := (line.takeWhile (fun c => c = ' ')).length
    let title := pySlice line indentation
      ((line.length : Int) - ((intChars index).length + 1))
    if st.level < indentation then
      some (emitEntry { st with parents := st.level :: st.parents,
                                level := indentation } title index)
    else if indentation < st.level then
      match popLevel st.parents indentation st.level with
      | (lvl, rest, true) =>
        some (emitEntry { st with level := lvl, parents := rest } title index)
      | (lvl, rest, false) =>
        some { st with level := lvl, parents := rest }
    else
      some (emitEntry st title index)

def readTocFrom (st : TocState) : List Chars → Option TocState
  | [] => some st
  | l :: ls =>
    match processLine st l with
    | none => none
    | some st1 => readTocFrom st1 ls

/-- read_toc on the file's lines (the `splitlines()` result): returns the
final state (pages dict, titles list), or `none` when an uncaught
exception aborts the parse. -/
def readToc (lines : List Chars) : Option TocState :=
  readTocFrom ⟨[], [], 0, []⟩ lines

example : (readToc [lineOf "A 1"]).map TocState.titles =
    some [(lineOf "A", 0, 1)] := rfl

example : (readToc [lineOf "A 1", lineOf " B 2", lineOf " C 3", lineOf "D 4"]).map
    TocState.titles =
    some [(lineOf "A", 0, 1), (lineOf "B", 1, 2), (lineOf "C", 1, 3),
      (lineOf "D", 0, 4)] := rfl

example : readToc [lineOf "A 1", lineOf "", lineOf "B 2"] = none := rfl

example : (readToc [lineOf "3"]).map TocState.titles = some [([], 0, 3)] := rfl

/-! ## import_bookmarks (src/apdfhelper.py lines 174-196)

pikepdf OutlineItem objects are mutable and aliased (an item sits both in
the tree and on the `levels` stack), so the embedding uses an arena:
node `i` of `arena` is the i-th OutlineItem created, `root` holds the
arena indices appended to `outline.root`, `levels` is the Python stack of
`(level, item)` pairs (head = top).  `OutlineItem(title, page - 1)` stores
the 0-based destination `page - 1`. -/

structure BNode where
  title : Chars
  dest : Int
  children : List Nat
deriving DecidableEq

structure OutlineState where
  arena : List BNode
  root : List Nat
  levels : List (Nat × Nat)
deriving DecidableEq

/-- `while level <= current_level: current_level, current_item = levels.pop()`:
pops until the current level is below `level`; an exhausted stack raises an
uncaught IndexError (`none`). -/
def whileLoop (level : Nat) : Nat → Nat → List (Nat × Nat) →
    Option (Nat × Nat × List (Nat × Nat))
  | cl, ci, stk =>
    if level ≤ cl then
      match stk with
      | [] => none
      | (c, i) :: r => whileLoop level c i r
    else
      some (cl, ci, stk)

/-- `current_item.children.append(item)` on the arena. -/
def appendChild (arena : List BNode) (p c : Nat) : List BNode :=
  match arena.get? p with
  | none => arena
  | some nd => arena.set p { nd with children := nd.children ++ [c] }

/-- One iteration of import_bookmarks' entry loop; `none` models an
uncaught IndexError from `levels.pop()` on an empty stack. -/
def importStep (st : OutlineState) (e : Chars × Nat × Int) :
    Option OutlineState :=
  let (title, level, page) := e
  let idx := st.arena.length
  let arena1 := st.arena ++ [⟨title, page - 1, []⟩]
  if level = 0 then
    some ⟨arena1, st.root ++ [idx], [(0, idx)]⟩
  else
    match st.levels with
    | [] => none
    | (cl0, ci0) :: rest0 =>
      let popped2 : Option (Nat × Nat × List (Nat × Nat)) :=
        if level = cl0 then
          match rest0 with
          | [] => none
          | (cl1, ci1) :: rest1 => some (cl1, ci1, rest1)
        else
          some (cl0, ci0, rest0)
      match popped2 with
      | none => none
      | some (cl, ci, rest) =>
        let rest1 := if cl < level then (cl, ci) :: rest else rest
        match whileLoop level cl ci rest1 with
        | none => none
        | some (_, ci2, rest2) =>
          some ⟨appendChild arena1 ci2 idx, st.root, (level, idx) :: rest2⟩

def importFrom (st : OutlineState) : List (Chars × Nat × Int) →
    Option OutlineState
  | [] => some st
  | e :: es =>
    match importStep st e with
    | none => none
    | some st1 => importFrom st1 es

/-- import_bookmarks on a parsed entry list, starting from an empty
outline (`levels = []`). -/
def importEntries (entries : List (Chars × Nat × Int)) : Option OutlineState :=
  importFrom ⟨[], [], []⟩ entries

/-- Outline trees, for reading back the arena. -/
inductive OTree where
  | node : Chars → Int → List OTree → OTree

/-- Read the tree rooted at arena index `i` (fuel-bounded; child indices
are strictly larger than their parent's, so `arena.length` fuel always
suffices). -/
def toTree (arena : List BNode) : Nat → Nat → OTree
  | 0, _ => OTree.node [] 0 []
  | fuel + 1, i =>
    match arena.get? i with
    | none => OTree.node [] 0 []
    | some nd =>
      OTree.node nd.title nd.dest (nd.children.map (fun j => toTree arena fuel j))

/-- The forest attached to the outline root. -/
def materializeState (st : OutlineState) : List OTree :=
  st.root.map (fun i => toTree st.arena st.arena.length i)

/-- read_toc followed by import_bookmarks followed by reading the built
outline back as a forest. -/
def tocPipeline (lines : List Chars) : Option (List OTree) :=
  match readToc lines with
  | none => none
  | some st => (importEntries st.titles).map materializeState

example : tocPipeline [lineOf "A 1", lineOf " B 2", lineOf " C 3", lineOf "D 4"] =
    some [OTree.node (lineOf "A") 0 [OTree.node (lineOf "B") 1 [],
            OTree.node (lineOf "C") 2 []],
          OTree.node (lineOf "D") 3 []] := rfl

-- import_bookmarks crashes on a plain sibling-after-nested entry sequence
example : (readToc [lineOf "A 1", lineOf " B 2", lineOf "  C 3", lineOf " D 4",
    lineOf " E 5"]).map TocState.titles =
    some [(lineOf "A", 0, 1), (lineOf "B", 1, 2), (lineOf "C", 2, 3),
      (lineOf "D", 1, 4), (lineOf "E", 1, 5)] := rfl

example : tocPipeline [lineOf "A 1", lineOf " B 2", lineOf "  C 3", lineOf " D 4",
    lineOf " E 5"] = none := rfl

/-! ## retrieve_titles / convert_bookmark_item (src/apdfhelper.py lines 132-164) -/

/-- Modelled from the spec (§3, §4.2, §6 store interface): an outline
node's stored destination resolves to its 1-based page number when the
0-based reference designates a page of the document, and resolution
failure yields page 0 (convert_bookmark_item catches the ValueError and
records `dest_index = 0`). -/
def destIndexOf (npages : Nat) (q : Int) : Int :=
  if 0 ≤ q ∧ q < (npages : Int) then q + 1 else 0

/-- convert_bookmark_item on the arena: emits
`f"{' '*level}{bookmark.title} {dest_index}"` then recurses into the
children at `level + 1` (fuel-bounded as in `toTree`). -/
def exportNode (arena : List BNode) (npages : Nat) : Nat → Nat → Nat → List Chars
  | 0, _, _ => []
  | fuel + 1, level, i =>
    match arena.get? i with
    | none => []
    | some nd =>
      (List.replicate level ' ' ++ nd.title ++
          ' ' :: intChars (destIndexOf npages nd.dest)) ::
        (nd.children.map (fun j => exportNode arena npages fuel (level + 1) j)).flatten

/-- retrieve_titles' textual output: the exported table-of-contents lines
of the document's outline. -/
def exportToc (npages : Nat) (st : OutlineState) : List Chars :=
  (st.root.map (fun i => exportNode st.arena npages st.arena.length 0 i)).flatten

example : ((readToc [lineOf "3"]).bind (fun st => importEntries st.titles)).map
    (exportToc 5) = some [lineOf " 3"] := rfl

/-! ## swap_page and the cut command (src/apdfhelper.py lines 206-211, 365-374) -/

/-- Modelled from the spec (§6): `pdf.pages.p(i)` is 1-based page access,
raising IndexError outside `[1, pageCount]`. -/
def pPage {α : Type} (l : List α) (i : Int) : Option α :=
  if 1 ≤ i ∧ i ≤ (l.length : Int) then l.get? (i - 1).toNat else none

/-- Python list item assignment `l[i] = a` (negative indices count from
the end; out of range raises IndexError). -/
def pySetItem {α : Type} (l : List α) (i : Int) (a : α) : Option (List α) :=
  let j : Int := if i < 0 then i + l.length else i
  if 0 ≤ j ∧ j < (l.length : Int) then some (l.set j.toNat a) else none

/-- swap_page: `page_temp = pages.p(target); pages[target-1] = pages.p(source);
pages[source-1] = page_temp`. -/
def swapPage {α : Type} (l : List α) (source target : Int) : Option (List α) :=
  match pPage l target with
  | none => none
  | some temp =>
    match pPage l source with
    | none => none
    | some ps =>
      match pySetItem l (target - 1) ps with
      | none => none
      | some l1 => pySetItem l1 (source - 1) temp

/-- Python `range(s, t, -1)`: s, s-1, ..., t+1 (empty when s ≤ t). -/
def pyRangeDownAux : Nat → Int → List Int
  | 0, _ => []
  | n + 1, s => s :: pyRangeDownAux n (s - 1)

def pyRangeDown (s t : Int) : List Int := pyRangeDownAux (s - t).toNat s

/-- The cut command's page loop:
`for to_swap in range(source, target, -1): swap_page(pdf, to_swap, to_swap - 1)`. -/
def cutPages {α : Type} (l : List α) (source target : Int) : Option (List α) :=
  (pyRangeDown source target).foldl
    (fun acc i => acc.bind (fun m => swapPage m i (i - 1))) (some l)

/-- Modelled from the claim/spec (§4.5, §8): remove the page at 1-based
position `s` and reinsert it at 1-based position `t`. -/
def specRemoveInsert {α : Type} (l : List α) (s t : Nat) : Option (List α) :=
  match l.get? (s - 1) with
  | none => none
  | some x => some ((l.eraseIdx (s - 1)).insertIdx (t - 1) x)

example : cutPages [1, 2, 3, 4, 5] 5 2 = some [1, 5, 2, 3, 4] := rfl
example : specRemoveInsert [1, 2, 3, 4, 5] 5 2 = some [1, 5, 2, 3, 4] := rfl
example : cutPages [1, 2, 3] 1 3 = some [1, 2, 3] := rfl
example : specRemoveInsert [1, 2, 3] 1 3 = some [2, 3, 1] := rfl

/-! ## the remove command (src/apdfhelper.py lines 214-222, 441-463) -/

/-- Python `range(a, b)`: a, a+1, ..., b-1 (empty when b ≤ a). -/
def pyRangeUpAux : Nat → Int → List Int
  | 0, _ => []
  | n + 1, s => s :: pyRangeUpAux n (s + 1)

def pyRangeUp (a b : Int) : List Int := pyRangeUpAux (b - a).toNat a

/-- One comma-separated segment of the ranges argument:
`segment.split("-")`, then either `range(int(s0), int(s1) + 1)` or a
single `int(s0)`; `none` is the ValueError that makes remove exit before
opening the document. -/
def parseSegment (seg : Chars) : Option (List Int) :=
  let sub := pySplit seg '-'
  if 1 < sub.length then
    match pyInt (sub.headD []) with
    | none => none
    | some a =>
      match pyInt ((sub.get? 1).getD []) with
      | none => none
      | some b => some (pyRangeUp a (b + 1))
  else
    (pyInt (sub.headD [])).map (fun a => [a])

def parseRangesAux : List Chars → Option (List Int)
  | [] => some []
  | seg :: rest =>
    match parseSegment seg with
    | none => none
    | some xs => (parseRangesAux rest).map (fun ys => xs ++ ys)

/-- The remove command's ranges parsing (`ranges.split(",")` then per
segment). -/
def parseRanges (s : Chars) : Option (List Int) := parseRangesAux (pySplit s ',')

/-- `sorted(pages, reverse=True)` on integers: descending insertion sort. -/
def insertDesc (x : Int) : List Int → List Int
  | [] => [x]
  | y :: ys => if y ≤ x then x :: y :: ys else y :: insertDesc x ys

def sortDesc (l : List Int) : List Int := l.foldr insertDesc []

/-- The deletion loop `for delete in sorted(pages, reverse=True):
remove_page(pdf, delete)`.  remove_page looks the page up with the
1-based `pdf.pages.p(index)` (IndexError outside range — uncaught, so the
loop aborts), clears the page's own keys (invisible to the page-identity
list) and deletes `pdf.pages[index - 1]`.  Returns the in-memory page
list at the end or at the abort, plus a completion flag. -/
def removeRun : List Int → List Nat → List Nat × Bool
  | [], l => (l, true)
  | i :: is, l =>
    if 1 ≤ i ∧ i ≤ (l.length : Int) then
      removeRun is (l.eraseIdx (i - 1).toNat)
    else
      (l, false)

/-- The document's pages, identified by their original 1-based position. -/
def originalPages (N : Nat) : List Nat := List.range' 1 N

/-- The whole remove command on a ranges string and an N-page document:
`none` when the parse is fatal or the deletion loop aborts (the output is
then never saved); otherwise the saved page list. -/
def removeCmd (ranges : Chars) (N : Nat) : Option (List Nat) :=
  match parseRanges ranges with
  | none => none
  | some ps =>
    let r := removeRun (sortDesc ps) (originalPages N)
    if r.2 then some r.1 else none

example : parseRanges (lineOf "2-4,3") = some [2, 3, 4, 3] := rfl
example : sortDesc [2, 3, 4, 3] = [4, 3, 3, 2] := rfl
example : removeRun [4, 3, 3, 2] (originalPages 5) = ([1], true) := rfl
example : removeCmd (lineOf "3-2,1") 3 = some [2, 3] := rfl
example : parseRanges (lineOf "x,1") = none := rfl
example : removeRun (sortDesc [2, 0]) (originalPages 3) = ([1, 3], false) := rfl
example : removeRun (sortDesc [5, 5]) (originalPages 5) = ([1, 2, 3, 4], false) := rfl
example : removeCmd (lineOf "1,3-4,7") 10 = some [2, 5, 6, 8, 9, 10] := rfl

/-! ## resolve_names and rewrite_named_links (src/apdfhelper.py lines 269-335)

The named-destination structure is the store's flattened association
list: a list of kids, each kid a list of (name, destination-value) pairs
(the source walks a kid's Names array pairwise; the paired form is
modelled directly).  A destination value is physically either a plain
array or a wrapper dictionary whose /D field holds the array. -/

/-- Modelled from the spec (§6, §7): the outcome of resolving an object
as a page — its 0-based index, a ValueError (dangling/deleted reference),
or a TypeError (wrong object type). -/
inductive Res where
  | page : Nat → Res
  | valueErr : Res
  | typeErr : Res
deriving DecidableEq

/-- The PDF values appearing in destination arrays: a page reference
(carrying its resolution outcome), a Name (such as /XYZ or /Fit), a
pikepdf String, or a number. -/
inductive PdfVal where
  | pageRef : Res → PdfVal
  | nameV : Chars → PdfVal
  | strV : Chars → PdfVal
  | numV : Int → PdfVal
deriving DecidableEq

/-- Modelled from the spec: `Page(obj)` on a non-page value raises a
TypeError, not the ValueError the source catches. -/
def pageOf : PdfVal → Res
  | PdfVal.pageRef r => r
  | _ => Res.typeErr

/-- Python `str(obj)` for the modelled values (Names and Strings render
as their text; the comparisons in the source only ever hit those). -/
def pyStrOf : PdfVal → Chars
  | PdfVal.pageRef _ => lineOf "<page>"
  | PdfVal.nameV s => s
  | PdfVal.strV s => s
  | PdfVal.numV n => intChars n

/-- A named-destination value: a plain array, or a wrapper dictionary
whose optional /D field holds the array. -/
inductive DestVal where
  | arr : List PdfVal → DestVal
  | wrap : Option (List PdfVal) → DestVal
deriving DecidableEq

/-- resolve_names' inner walk over one kid's (name, dest) pairs,
threading the result dict.  `dest[0]` on a plain array is positional
access (IndexError on an empty array is uncaught); on a wrapper
dictionary positional indexing is not supported — resolve_names performs
no shape normalization, and the resulting error is not the ValueError it
catches, so the walk aborts (`none`).  A ValueError from `Page(dest[0])`
is caught by `except ValueError: pass` (name skipped, walk continues). -/
def resolvePairs (dict : List (Chars × Int)) :
    List (Chars × DestVal) → Option (List (Chars × Int))
  | [] => some dict
  | (name, dv) :: rest =>
    match dv with
    | DestVal.wrap _ => none
    | DestVal.arr [] => none
    | DestVal.arr (v :: _) =>
      match pageOf v with
      | Res.page i => resolvePairs (pyDictSet dict name ((i : Int) + 1)) rest
      | Res.valueErr => resolvePairs dict rest
      | Res.typeErr => none

def resolveKids (dict : List (Chars × Int)) :
    List (List (Chars × DestVal)) → Option (List (Chars × Int))
  | [] => some dict
  | k :: ks =>
    match resolvePairs dict k with
    | none => none
    | some dict1 => resolveKids dict1 ks

/-- resolve_names: name → 1-based page number for the document's named
destinations, or `none` when the walk aborts on an uncaught error. -/
def resolveNames (kids : List (List (Chars × DestVal))) :
    Option (List (Chars × Int)) :=
  resolveKids [] kids

/-- The pairs resolve_names would keep: plain-array destinations whose
first element resolves to a page. -/
def resolvedOf : Chars × DestVal → Option (Chars × Int)
  | (n, DestVal.arr (PdfVal.pageRef (Res.page i) :: _)) => some (n, (i : Int) + 1)
  | _ => none

/-- A pair resolve_names can walk past: a plain array headed by a page
reference that resolves or fails with ValueError. -/
def goodPairB : Chars × DestVal → Bool
  | (_, DestVal.arr (PdfVal.pageRef (Res.page _) :: _)) => true
  | (_, DestVal.arr (PdfVal.pageRef Res.valueErr :: _)) => true
  | _ => false

example : resolveNames [[(lineOf "a", DestVal.arr [PdfVal.pageRef (Res.page 0)]),
    (lineOf "b", DestVal.arr [PdfVal.pageRef Res.valueErr]),
    (lineOf "c", DestVal.arr [PdfVal.pageRef (Res.page 4)])]] =
    some [(lineOf "a", 1), (lineOf "c", 5)] := rfl

example : resolveNames [[(lineOf "a",
    DestVal.wrap (some [PdfVal.pageRef (Res.page 0)])),
    (lineOf "b", DestVal.arr [PdfVal.pageRef (Res.page 1)])]] = none := rfl

/-! ### rewrite_named_links -/

/-- The lines rewrite_named_links prints for a destination (stdout
reporting; logging.info lines are not part of the printed report). -/
inductive ROut where
  | shown : PdfVal → ROut
  | shownParams : PdfVal → PdfVal → PdfVal → ROut
  | resolvedPage : Chars → Nat → ROut
  | resolvedTitle : Chars → Chars → ROut
  | rewriting : Chars → Int → ROut
  | broken : Chars → ROut
deriving DecidableEq

/-- `if isinstance(dest, Dictionary): dest = dest.get("/D")`: the shape
normalization (only) rewrite_named_links performs; a wrapper without /D
leaves Python `None` (subsequent indexing then raises, `none` downstream). -/
def getD : DestVal → Option (List PdfVal)
  | DestVal.arr xs => some xs
  | DestVal.wrap d => d

/-- Rebuild the stored destination after in-place mutation of the
(possibly unwrapped) array. -/
def rebuild (dv : DestVal) (xs : List PdfVal) : DestVal :=
  match dv with
  | DestVal.arr _ => DestVal.arr xs
  | DestVal.wrap _ => DestVal.wrap (some xs)

/-- The body of rewrite_named_links' per-destination try/except after the
view-type check: coerce `dest[1]` to String("/Fit") when the view-type is
XYZ and both `fit` and an output file are requested; then either retarget
`dest[0]` from the transformation map (`pdf.pages.p` raising an uncaught
IndexError for an out-of-range page), or resolve and report the current
page; a ValueError from resolution falls to the except branch, which
retargets (printing `rewriting`) or reports `broken`. -/
def processCore (tr : List (Chars × Int)) (fit outfile : Bool)
    (titles : List (Int × Chars)) (npages : Nat) (name : Chars)
    (dv : DestVal) (xs : List PdfVal) (isXYZ : Bool) (outs : List ROut) :
    Option (DestVal × List ROut) :=
  let xs1 := if isXYZ && fit && outfile then
    xs.set 1 (PdfVal.strV (lineOf "/Fit")) else xs
  match dictGet tr name with
  | some t =>
    if 1 ≤ t ∧ t ≤ (npages : Int) then
      some (rebuild dv (xs1.set 0 (PdfVal.pageRef (Res.page (t - 1).toNat))), outs)
    else none
  | none =>
    match xs1.get? 0 with
    | none => none
    | some v0 =>
      match pageOf v0 with
      | Res.page i =>
        match dictGet titles ((i : Int) + 1) with
        | some ttl => some (rebuild dv xs1, outs ++ [ROut.resolvedTitle name ttl])
        | none => some (rebuild dv xs1, outs ++ [ROut.resolvedPage name (i + 1)])
      | Res.valueErr =>
        match dictGet tr name with
        | some t =>
          if 1 ≤ t ∧ t ≤ (npages : Int) then
            some (rebuild dv (xs1.set 0 (PdfVal.pageRef (Res.page (t - 1).toNat))),
              outs ++ [ROut.rewriting name t])
          else none
        | none => some (rebuild dv xs1, outs ++ [ROut.broken name])
      | Res.typeErr => none

/-- One destination of rewrite_named_links: normalize the shape, read the
view-type `dest[1]` (IndexError on short arrays and TypeError on a
missing /D are uncaught: `none`), print details when requested, then
`processCore`. -/
def processDest (tr : List (Chars × Int)) (fit outfile detailed : Bool)
    (titles : List (Int × Chars)) (npages : Nat) (name : Chars)
    (dv : DestVal) : Option (DestVal × List ROut) :=
  match getD dv with
  | none => none
  | some xs =>
    match xs.get? 1 with
    | none => none
    | some v1 =>
      let outA : List ROut := if detailed then [ROut.shown v1] else []
      if pyStrOf v1 = lineOf "/XYZ" then
        if detailed then
          match xs.get? 2, xs.get? 3, xs.get? 4 with
          | some a, some b, some c =>
            processCore tr fit outfile titles npages name dv xs true
              (outA ++ [ROut.shownParams a b c])
          | _, _, _ => none
        else
          processCore tr fit outfile titles npages name dv xs true outA
      else
        processCore tr fit outfile titles npages name dv xs false outA

/-- The walk over one kid's pairs: an uncaught error leaves the current
and remaining destinations unmodified and aborts (flag `false`). -/
def rewritePairs (tr : List (Chars × Int)) (fit outfile detailed : Bool)
    (titles : List (Int × Chars)) (npages : Nat) :
    List (Chars × DestVal) → List (Chars × DestVal) × List ROut × Bool
  | [] => ([], [], true)
  | (n, dv) :: rest =>
    match processDest tr fit outfile detailed titles npages n dv with
    | none => ((n, dv) :: rest, [], false)
    | some (dv1, outs) =>
      let r := rewritePairs tr fit outfile detailed titles npages rest
      ((n, dv1) :: r.1, outs ++ r.2.1, r.2.2)

/-- rewrite_named_links over all kids: the resulting destination
structure, the printed report, and whether the walk completed. -/
def rewriteNamedLinks (tr : List (Chars × Int)) (fit outfile detailed : Bool)
    (titles : List (Int × Chars)) (npages : Nat) :
    List (List (Chars × DestVal)) →
      List (List (Chars × DestVal)) × List ROut × Bool
  | [] => ([], [], true)
  | k :: ks =>
    match rewritePairs tr fit outfile detailed titles npages k with
    | (k1, outs, true) =>
      let r := rewriteNamedLinks tr fit outfile detailed titles npages ks
      (k1 :: r.1, outs ++ r.2.1, r.2.2)
    | (k1, outs, false) => (k1 :: ks, outs, false)

example : processDest [] true true false [] 3 (lineOf "n")
    (DestVal.arr [PdfVal.pageRef (Res.page 0), PdfVal.nameV (lineOf "/XYZ"),
      PdfVal.numV 10, PdfVal.numV 20, PdfVal.numV 0]) =
    some (DestVal.arr [PdfVal.pageRef (Res.page 0), PdfVal.strV (lineOf "/Fit"),
      PdfVal.numV 10, PdfVal.numV 20, PdfVal.numV 0],
      [ROut.resolvedPage (lineOf "n") 1]) := rfl

/-! ## Claim theorems -/

/-- C1: at the valid pair source=1, target=3 on a 3-page document the cut
command performs no swaps (`range(source, target, -1)` is empty for
target > source) and leaves the page order unchanged, whereas removing
page 1 and reinserting it at position 3 yields 2,3,1 — so cut does not
move the page for target > source; the backward direction source=5,
target=2 does agree with remove+reinsert. -/
theorem cut_forward_noop :
    cutPages [1, 2, 3] 1 3 = some [1, 2, 3]
  ∧ specRemoveInsert [1, 2, 3] 1 3 = some [2, 3, 1]
  ∧ (some [1, 2, 3] : Option (List Nat)) ≠ some [2, 3, 1]
  ∧ cutPages [1, 2, 3, 4, 5] 5 2 = some [1, 5, 2, 3, 4]
  ∧ specRemoveInsert [1, 2, 3, 4, 5] 5 2 = some [1, 5, 2, 3, 4] :=
  ⟨rfl, rfl, by decide, rfl, rfl⟩

/-- C3: read_toc does not survive a blank line — the skip diagnostic
formats `line[0]`, which raises an uncaught IndexError on the empty
string, aborting the whole parse instead of skipping the line and
continuing. -/
theorem read_toc_blank_line_crash :
    readToc [lineOf "A 1", lineOf "", lineOf "B 2"] = none := rfl

/-- C4: importing the TOC text A 1 / (space)B 2 / (space)C 3 / D 4
(levels 0,1,1,0) into an empty outline yields the forest
A(children B, C), D: C is attached as the second child of A and D as a
root-level sibling of A. -/
theorem import_stack_discipline :
    tocPipeline [lineOf "A 1", lineOf " B 2", lineOf " C 3", lineOf "D 4"] =
    some [OTree.node (lineOf "A") 0 [OTree.node (lineOf "B") 1 [],
            OTree.node (lineOf "C") 2 []],
          OTree.node (lineOf "D") 3 []] := rfl

/-- C5: the export/re-import round trip fails on a pipeline-produced
outline: the single TOC line `3` parses to an empty title at level 0 and
imports fine, its export prints the line (space)3, but re-parsing that
line yields level 1 (the empty title shifts the page number into the
indentation), and re-importing a first entry at level 1 pops the empty
levels stack — an uncaught IndexError instead of the same triples.
Moreover the importer cannot even build the ordinary three-level outline
A / B / C(under B) / D / E (parsed levels 0,1,2,1,1): it crashes on E, so
the round trip cannot hold for 3-or-more nesting levels either. -/
theorem toc_roundtrip_crash :
    ((readToc [lineOf "3"]).bind (fun st => importEntries st.titles)).map
      (exportToc 5) = some [lineOf " 3"]
  ∧ (readToc [lineOf " 3"]).map TocState.titles = some [([], 1, 3)]
  ∧ (readToc [lineOf " 3"]).bind (fun st => importEntries st.titles) = none
  ∧ tocPipeline [lineOf "A 1", lineOf " B 2", lineOf "  C 3", lineOf " D 4",
      lineOf " E 5"] = none :=
  ⟨rfl, rfl, rfl, rfl⟩

/-- C2 counterexample: on the two lines A 3 and B 3 (same page number),
read_toc's pages dict maps 3 to B — the title of the last such line, not
the first one the claim promises — while the entries list keeps both
lines in input order. -/
theorem read_toc_last_title_counterexample :
    (readToc [lineOf "A 3", lineOf "B 3"]).map
      (fun st => (dictGet st.pages 3, st.titles)) =
      some (some (lineOf "B"),
        [(lineOf "A", 0, 3), (lineOf "B", 0, 3)])
  ∧ lineOf "B" ≠ lineOf "A" := ⟨rfl, by decide⟩

/-- C6 counterexample: a wrapper-dictionary destination is not normalized
by resolve_names — it aborts the whole walk (uncaught non-ValueError from
positionally indexing the dictionary), so the following perfectly
resolvable plain-array destination is also lost; the same array alone
resolves fine. -/
theorem resolve_names_wrapper_counterexample :
    resolveNames [[(lineOf "a", DestVal.wrap (some [PdfVal.pageRef (Res.page 0)])),
      (lineOf "b", DestVal.arr [PdfVal.pageRef (Res.page 1)])]] = none
  ∧ resolveNames [[(lineOf "b", DestVal.arr [PdfVal.pageRef (Res.page 1)])]] =
      some [(lineOf "b", 2)] := ⟨rfl, rfl⟩

/-- C7 counterexample: coercing an XYZ destination with fit and an output
file replaces only the view-type slot with the String /Fit; the left, top
and zoom parameters stay in the array (positions 2..4 unchanged, length
still 5), contradicting the claim that they are dropped. -/
theorem xyz_params_kept_counterexample :
    processDest [] true true false [] 3 (lineOf "n")
      (DestVal.arr [PdfVal.pageRef (Res.page 0), PdfVal.nameV (lineOf "/XYZ"),
        PdfVal.numV 10, PdfVal.numV 20, PdfVal.numV 0]) =
      some (DestVal.arr [PdfVal.pageRef (Res.page 0), PdfVal.strV (lineOf "/Fit"),
        PdfVal.numV 10, PdfVal.numV 20, PdfVal.numV 0],
        [ROut.resolvedPage (lineOf "n") 1])
  ∧ (DestVal.arr [PdfVal.pageRef (Res.page 0), PdfVal.strV (lineOf "/Fit"),
      PdfVal.numV 10, PdfVal.numV 20, PdfVal.numV 0] ≠
     DestVal.arr [PdfVal.pageRef (Res.page 0), PdfVal.strV (lineOf "/Fit")]) :=
  ⟨rfl, by decide⟩

/-- C8 counterexample: the segment 3-2 has stop < start, yet remove does
not abort — the segment just contributes no pages and the remaining
segment deletes page 1, so the saved document differs from the original
instead of the operation failing before any deletion. -/
theorem remove_stop_lt_start_counterexample :
    removeCmd (lineOf "3-2,1") 3 = some [2, 3]
  ∧ (some [2, 3] : Option (List Nat)) ≠ some (originalPages 3) :=
  ⟨rfl, by decide⟩

/-- C9 counterexample: with ranges 5,5 on a 5-page document, the second
occurrence of index 5 is out of range after the first deletion, so the
run aborts with only one deletion performed — not one deletion per listed
occurrence. -/
theorem remove_dup_abort_counterexample :
    parseRanges (lineOf "5,5") = some [5, 5]
  ∧ removeRun (sortDesc [5, 5]) (originalPages 5) = ([1, 2, 3, 4], false)
  ∧ (originalPages 5).length - ([1, 2, 3, 4] : List Nat).length ≠ 2 :=
  ⟨rfl, rfl, by decide⟩

/-- The title of the last entry for page `i` in the entries list. -/
def lastTitleFor (titles : List (Chars × Nat × Int)) (i : Int) : Option Chars :=
  (titles.reverse.find? (fun e => e.2.2 == i)).map (fun e => e.1)

theorem dictGet_pyDictSet (d : List (Int × Chars)) (k : Int) (v : Chars) (i : Int) :
    dictGet (pyDictSet d k v) i = if k = i then some v else dictGet d i := by
  induction d with
  | nil => simp [pyDictSet, dictGet]
  | cons p rest ih =>
    obtain ⟨k0, v0⟩ := p
    by_cases h : k0 = k
    · subst h
      by_cases hki : k0 = i <;> simp [pyDictSet, dictGet, hki]
    · by_cases hki : k0 = i
      · have hk : ¬(k = i) := fun hh => h (hki.trans hh.symm)
        have hik : ¬(i = k) := fun hh => hk hh.symm
        simp [pyDictSet, dictGet, h, hki, hik, hk]
      · simp [pyDictSet, dictGet, h, hki, ih]

theorem lastTitleFor_append (titles : List (Chars × Nat × Int)) (t : Chars)
    (lvl : Nat) (idx i : Int) :
    lastTitleFor (titles ++ [(t, lvl, idx)]) i =
      if idx = i then some t else lastTitleFor titles i := by
  by_cases h : idx = i
  · subst h
    simp only [lastTitleFor, List.reverse_append, List.reverse_cons,
      List.reverse_nil, List.nil_append, List.singleton_append]
    rw [List.find?_cons_of_pos _ (by simp)]
    simp
  · simp only [lastTitleFor, List.reverse_append, List.reverse_cons,
      List.reverse_nil, List.nil_append, List.singleton_append]
    rw [List.find?_cons_of_neg _ (by simp [h])]
    simp [h]

/-- The pages dict always holds the title of the last emitted entry for
each page. -/
def PagesInv (st : TocState) : Prop :=
  ∀ i, dictGet st.pages i = lastTitleFor st.titles i

theorem pagesInv_emit (pg : List (Int × Chars)) (tl : List (Chars × Nat × Int))
    (lvl : Nat) (pr : List Nat) (h : ∀ i, dictGet pg i = lastTitleFor tl i)
    (t : Chars) (idx : Int) : PagesInv (emitEntry ⟨pg, tl, lvl, pr⟩ t idx) := by
  intro i
  simp only [emitEntry]
  rw [dictGet_pyDictSet, lastTitleFor_append, h i]

theorem pagesInv_processLine {st st1 : TocState} {l : Chars}
    (h : PagesInv st) (hp : processLine st l = some st1) : PagesInv st1 := by
  unfold processLine at hp
  dsimp only at hp
  split at hp
  · split at hp
    · cases hp
    · cases hp
      exact h
  · split at hp
    · cases hp
      exact pagesInv_emit _ _ _ _ h _ _
    · split at hp
      · split at hp
        · cases hp
          exact pagesInv_emit _ _ _ _ h _ _
        · cases hp
          exact fun i => h i
      · cases hp
        exact pagesInv_emit _ _ _ _ h _ _

theorem pagesInv_readTocFrom : ∀ (lines : List Chars) (st0 st : TocState),
    PagesInv st0 → readTocFrom st0 lines = some st → PagesInv st := by
  intro lines
  induction lines with
  | nil =>
    intro st0 st h hr
    simp [readTocFrom] at hr
    exact hr ▸ h
  | cons l ls ih =>
    intro st0 st h hr
    simp only [readTocFrom] at hr
    rcases hpl : processLine st0 l with _ | st1
    · rw [hpl] at hr; cases hr
    · rw [hpl] at hr
      exact ih st1 st (pagesInv_processLine h hpl) hr

/-- C2 amended: for every successfully parsed TOC input, the pages map
associates each page number with the title of the LAST well-formed line
carrying that page number. -/
theorem read_toc_pages_last_title (lines : List Chars) (st : TocState)
    (h : readToc lines = some st) (i : Int) :
    dictGet st.pages i = lastTitleFor st.titles i :=
  pagesInv_readTocFrom lines ⟨[], [], 0, []⟩ st (fun _ => rfl) h i

theorem read_toc_pages_last_title_witness :
    readToc [lineOf "A 3", lineOf "B 3"] =
      some ⟨[(3, lineOf "B")], [(lineOf "A", 0, 3), (lineOf "B", 0, 3)], 0, []⟩
  ∧ dictGet [((3 : Int), lineOf "B")] 3 =
      lastTitleFor [(lineOf "A", 0, 3), (lineOf "B", 0, 3)] 3 :=
  ⟨rfl, read_toc_pages_last_title [lineOf "A 3", lineOf "B 3"]
    ⟨[(3, lineOf "B")], [(lineOf "A", 0, 3), (lineOf "B", 0, 3)], 0, []⟩ rfl 3⟩

/-- What resolve_names returns when every destination is a plain array
headed by a page reference: the resolvable pairs, inserted in walk order. -/
def resolveSpec (kids : List (List (Chars × DestVal))) : List (Chars × Int) :=
  (kids.flatten.filterMap resolvedOf).foldl (fun d p => pyDictSet d p.1 p.2) []

theorem resolvePairs_good : ∀ (pairs : List (Chars × DestVal))
    (dict : List (Chars × Int)), (∀ nd ∈ pairs, goodPairB nd = true) →
    resolvePairs dict pairs =
      some ((pairs.filterMap resolvedOf).foldl (fun d p => pyDictSet d p.1 p.2) dict) := by
  intro pairs
  induction pairs with
  | nil =>
    intro dict h
    simp [resolvePairs]
  | cons nd rest ih =>
    intro dict h
    obtain ⟨n, dv⟩ := nd
    have hg := h (n, dv) (List.mem_cons_self _ _)
    rcases dv with xs | d
    · rcases xs with _ | ⟨v, tl⟩
      · simp [goodPairB] at hg
      · rcases v with r | s | s | m
        · rcases r with i | _ | _
          · simp only [resolvePairs, pageOf]
            rw [ih _ (fun x hx => h x (List.mem_cons_of_mem _ hx))]
            simp [resolvedOf]
          · simp only [resolvePairs, pageOf]
            rw [ih _ (fun x hx => h x (List.mem_cons_of_mem _ hx))]
            simp [resolvedOf]
          · simp [goodPairB] at hg
        · simp [goodPairB] at hg
        · simp [goodPairB] at hg
        · simp [goodPairB] at hg
    · simp [goodPairB] at hg

theorem resolveKids_good : ∀ (ks : List (List (Chars × DestVal)))
    (dict : List (Chars × Int)), (∀ k ∈ ks, ∀ nd ∈ k, goodPairB nd = true) →
    resolveKids dict ks =
      some ((ks.flatten.filterMap resolvedOf).foldl (fun d p => pyDictSet d p.1 p.2) dict) := by
  intro ks
  induction ks with
  | nil =>
    intro dict h
    simp [resolveKids]
  | cons k rest ih =>
    intro dict h
    simp only [resolveKids]
    rw [resolvePairs_good k dict (h k (List.mem_cons_self _ _))]
    dsimp only
    rw [ih _ (fun x hx => h x (List.mem_cons_of_mem _ hx))]
    simp [List.filterMap_append, List.foldl_append]

/-- C6 amended: resolve_names handles only the plain-array physical
shape.  For a document whose destination values are all plain arrays
headed by a page reference, every name whose reference resolves is mapped
to its 1-based page, every ValueError resolution failure is silently
excluded and the walk continues (wrapper dictionaries are not normalized
there — only rewrite_named_links unwraps /D — and abort the walk with an
error resolve_names does not catch). -/
theorem resolve_names_arrays_only (kids : List (List (Chars × DestVal)))
    (h : ∀ k ∈ kids, ∀ nd ∈ k, goodPairB nd = true) :
    resolveNames kids = some (resolveSpec kids) :=
  resolveKids_good kids [] h

def goodKidsExample : List (List (Chars × DestVal)) :=
  [[(lineOf "a", DestVal.arr [PdfVal.pageRef (Res.page 0)]),
    (lineOf "b", DestVal.arr [PdfVal.pageRef Res.valueErr]),
    (lineOf "c", DestVal.arr [PdfVal.pageRef (Res.page 4), PdfVal.nameV (lineOf "/Fit")])]]

theorem resolve_names_arrays_only_witness :
    (∀ k ∈ goodKidsExample, ∀ nd ∈ k, goodPairB nd = true)
  ∧ resolveNames goodKidsExample = some (resolveSpec goodKidsExample) :=
  ⟨by decide, resolve_names_arrays_only goodKidsExample (by decide)⟩

theorem getD_rebuild (dv : DestVal) (xs : List PdfVal) :
    getD (rebuild dv xs) = some xs := by
  cases dv <;> rfl

/-- C7 amended: when fit coercion is configured and an output file is
requested, an XYZ destination's view-type slot is replaced by the String
/Fit, but the left/top/zoom view-parameters are NOT dropped: the
destination array keeps its length and every element from position 2 on
unchanged (position 0 may still be retargeted by the transformation map). -/
theorem xyz_fit_keeps_params (tr : List (Chars × Int)) (titles : List (Int × Chars))
    (npages : Nat) (name : Chars) (dv dv1 : DestVal) (xs : List PdfVal)
    (v1 : PdfVal) (outs : List ROut)
    (hx : getD dv = some xs) (hv1 : xs.get? 1 = some v1)
    (hxyz : pyStrOf v1 = lineOf "/XYZ")
    (hp : processDest tr true true false titles npages name dv = some (dv1, outs)) :
    ∃ xs1, getD dv1 = some xs1
      ∧ xs1.get? 1 = some (PdfVal.strV (lineOf "/Fit"))
      ∧ xs1.length = xs.length
      ∧ ∀ j, 2 ≤ j → xs1.get? j = xs.get? j := by
  have hlt : 1 < xs.length := by
    rcases List.get?_eq_some.mp hv1 with ⟨h, _⟩
    exact h
  have hF1 : (xs.set 1 (PdfVal.strV (lineOf "/Fit"))).get? 1 =
      some (PdfVal.strV (lineOf "/Fit")) := List.get?_set_eq_of_lt _ hlt
  have hFj : ∀ j, 2 ≤ j →
      (xs.set 1 (PdfVal.strV (lineOf "/Fit"))).get? j = xs.get? j :=
    fun j hj => List.get?_set_ne _ _ (by omega)
  simp only [processDest, processCore, hx, hv1, hxyz, if_true, Bool.and_self,
    Bool.false_eq_true, if_false, List.nil_append, if_pos rfl] at hp
  split at hp
  · -- name in transformation
    split at hp
    · simp only [Option.some.injEq, Prod.mk.injEq] at hp
      obtain ⟨h1, h2⟩ := hp
      subst h1
      refine ⟨_, getD_rebuild _ _, ?_, ?_, ?_⟩
      · rw [List.get?_set_ne _ _ (by decide : (0 : Nat) ≠ 1)]
        exact hF1
      · rw [List.length_set, List.length_set]
      · intro j hj
        rw [List.get?_set_ne _ _ (by omega : (0 : Nat) ≠ j)]
        exact hFj j hj
    · simp at hp
  · -- name not in transformation
    rw [List.get?_set_ne _ _ (by decide : (1 : Nat) ≠ 0)] at hp
    rcases hg0 : xs.get? 0 with _ | v0
    · rw [List.get?_eq_none] at hg0
      omega
    · rw [hg0] at hp
      dsimp only at hp
      rcases hres : pageOf v0 with i | _ | _ <;> rw [hres] at hp <;> dsimp only at hp
      · rcases htt : dictGet titles ((i : Int) + 1) with _ | ttl <;>
          rw [htt] at hp <;> dsimp only at hp <;>
          simp only [Option.some.injEq, Prod.mk.injEq] at hp <;>
          obtain ⟨h1, h2⟩ := hp <;> subst h1 <;>
          exact ⟨_, getD_rebuild _ _, hF1, List.length_set xs _ _, hFj⟩
      · simp only [Option.some.injEq, Prod.mk.injEq] at hp
        obtain ⟨h1, h2⟩ := hp
        subst h1
        exact ⟨_, getD_rebuild _ _, hF1, List.length_set xs _ _, hFj⟩
      · simp at hp

def xyzExampleArr : List PdfVal :=
  [PdfVal.pageRef (Res.page 0), PdfVal.nameV (lineOf "/XYZ"),
   PdfVal.numV 10, PdfVal.numV 20, PdfVal.numV 0]

def xyzExampleOut : List PdfVal :=
  [PdfVal.pageRef (Res.page 0), PdfVal.strV (lineOf "/Fit"),
   PdfVal.numV 10, PdfVal.numV 20, PdfVal.numV 0]

theorem xyz_fit_keeps_params_witness :
    getD (DestVal.arr xyzExampleArr) = some xyzExampleArr
  ∧ xyzExampleArr.get? 1 = some (PdfVal.nameV (lineOf "/XYZ"))
  ∧ pyStrOf (PdfVal.nameV (lineOf "/XYZ")) = lineOf "/XYZ"
  ∧ processDest [] true true false [] 3 (lineOf "n") (DestVal.arr xyzExampleArr) =
      some (DestVal.arr xyzExampleOut, [ROut.resolvedPage (lineOf "n") 1])
  ∧ ∃ xs1, getD (DestVal.arr xyzExampleOut) = some xs1
      ∧ xs1.get? 1 = some (PdfVal.strV (lineOf "/Fit"))
      ∧ xs1.length = xyzExampleArr.length
      ∧ ∀ j, 2 ≤ j → xs1.get? j = xyzExampleArr.get? j :=
  ⟨rfl, rfl, rfl, rfl,
    xyz_fit_keeps_params [] [] 3 (lineOf "n") (DestVal.arr xyzExampleArr)
      (DestVal.arr xyzExampleOut) xyzExampleArr (PdfVal.nameV (lineOf "/XYZ"))
      [ROut.resolvedPage (lineOf "n") 1] rfl rfl rfl rfl⟩

theorem rebuild_self {dv : DestVal} {xs : List PdfVal} (h : getD dv = some xs) :
    rebuild dv xs = dv := by
  cases dv with
  | arr ys =>
    simp only [getD, Option.some.injEq] at h
    rw [rebuild, h]
  | wrap d =>
    simp only [getD] at h
    rw [rebuild, h]

theorem processCore_no_config (fit : Bool) (titles : List (Int × Chars))
    (npages : Nat) (n : Chars) (dv dv1 : DestVal) (xs : List PdfVal)
    (isXYZ : Bool) (outs0 outs : List ROut) (hx : getD dv = some xs)
    (hp : processCore [] fit false titles npages n dv xs isXYZ outs0 =
      some (dv1, outs)) : dv1 = dv := by
  have hre : rebuild dv xs = dv := rebuild_self hx
  simp only [processCore, Bool.and_false, Bool.false_eq_true, if_false, dictGet] at hp
  rcases hg0 : xs.get? 0 with _ | v0
  · rw [hg0] at hp
    cases hp
  · rw [hg0] at hp
    dsimp only at hp
    rcases hres : pageOf v0 with i | _ | _ <;> rw [hres] at hp <;> dsimp only at hp
    · rcases htt : dictGet titles ((i : Int) + 1) with _ | ttl <;>
        rw [htt] at hp <;> dsimp only at hp <;>
        simp only [Option.some.injEq, Prod.mk.injEq] at hp <;>
        exact hp.1.symm.trans hre
    · simp only [Option.some.injEq, Prod.mk.injEq] at hp
      exact hp.1.symm.trans hre
    · cases hp

theorem processDest_no_config (fit detailed : Bool) (titles : List (Int × Chars))
    (npages : Nat) (n : Chars) (dv dv1 : DestVal) (outs : List ROut)
    (hp : processDest [] fit false detailed titles npages n dv =
      some (dv1, outs)) : dv1 = dv := by
  rcases hx : getD dv with _ | xs
  · unfold processDest at hp
    rw [hx] at hp
    cases hp
  · rcases hv1 : xs.get? 1 with _ | v1
    · unfold processDest at hp
      rw [hx] at hp
      dsimp only at hp
      rw [hv1] at hp
      cases hp
    · unfold processDest at hp
      rw [hx] at hp
      dsimp only at hp
      rw [hv1] at hp
      dsimp only at hp
      split at hp
      · split at hp
        · split at hp
          · exact processCore_no_config _ _ _ _ _ _ _ _ _ _ hx hp
          · cases hp
        · exact processCore_no_config _ _ _ _ _ _ _ _ _ _ hx hp
      · exact processCore_no_config _ _ _ _ _ _ _ _ _ _ hx hp

theorem rewritePairs_no_config (fit detailed : Bool) (titles : List (Int × Chars))
    (npages : Nat) : ∀ pairs : List (Chars × DestVal),
    (rewritePairs [] fit false detailed titles npages pairs).1 = pairs := by
  intro pairs
  induction pairs with
  | nil => rfl
  | cons nd rest ih =>
    obtain ⟨n, dv⟩ := nd
    simp only [rewritePairs]
    rcases hpd : processDest [] fit false detailed titles npages n dv with _ | r
    · rfl
    · obtain ⟨dv1, outs⟩ := r
      have hdv : dv1 = dv :=
        processDest_no_config fit detailed titles npages n dv dv1 outs hpd
      subst hdv
      simpa using ih

/-- C10: with no configuration file (empty transformation) and no output
file requested — the links command's plain listing mode — every named
destination in the document is left unchanged by rewrite_named_links:
listing links never mutates the destination structure, for any fit,
detailed and titles settings and regardless of where the walk stops. -/
theorem links_read_only (kids : List (List (Chars × DestVal))) (fit detailed : Bool)
    (titles : List (Int × Chars)) (npages : Nat) :
    (rewriteNamedLinks [] fit false detailed titles npages kids).1 = kids := by
  induction kids with
  | nil => rfl
  | cons k ks ih =>
    simp only [rewriteNamedLinks]
    rcases hrp : rewritePairs [] fit false detailed titles npages k with ⟨k1, outs, ok⟩
    have hk1 : k1 = k := by
      have h := rewritePairs_no_config fit detailed titles npages k
      rw [hrp] at h
      exact h
    subst hk1
    cases ok
    · rfl
    · simpa using ih

/-- C8 amended: a non-integer token in the ranges string is fatal before
the document is touched; a segment whose stop is less than its start is
NOT an error — it contributes no pages (Python's empty range) and the
remaining segments are deleted and saved; an out-of-range index aborts
the deletion loop (unsaved) only when its turn comes in descending order,
after the higher listed pages were already deleted in memory. -/
theorem remove_ranges_amended :
    (∀ N : Nat, removeCmd (lineOf "3-2,1") (N + 3) = some (List.range' 2 (N + 2)))
  ∧ parseRanges (lineOf "2,0") = some [2, 0]
  ∧ removeRun (sortDesc [2, 0]) (originalPages 3) = ([1, 3], false)
  ∧ parseRanges (lineOf "x,1") = none := by
  refine ⟨?_, rfl, rfl, rfl⟩
  intro N
  have hp : parseRanges (lineOf "3-2,1") = some [1] := rfl
  unfold removeCmd
  rw [hp]
  dsimp only
  have hs : sortDesc [1] = [1] := rfl
  have ho : originalPages (N + 3) = 1 :: List.range' 2 (N + 2) := rfl
  rw [hs, ho]
  have hc : (1 : Int) ≤ 1 ∧ (1 : Int) ≤ ((1 :: List.range' 2 (N + 2)).length : Int) := by
    constructor
    · exact le_refl 1
    · simp [List.length_range']
      omega
  simp only [removeRun]
  rw [if_pos hc]
  simp only [removeRun]
  rfl

theorem insertDesc_perm (x : Int) (l : List Int) : (insertDesc x l).Perm (x :: l) := by
  induction l with
  | nil => exact List.Perm.refl _
  | cons y ys ih =>
    by_cases h : y ≤ x
    · simp [insertDesc, h]
    · simp only [insertDesc, if_neg h]
      exact (ih.cons y).trans (List.Perm.swap x y ys)

theorem sortDesc_perm (l : List Int) : (sortDesc l).Perm l := by
  induction l with
  | nil => exact List.Perm.refl _
  | cons x xs ih =>
    exact (insertDesc_perm x (sortDesc xs)).trans (ih.cons x)

theorem removeRun_length : ∀ (idxs : List Int) (l fin : List Nat),
    removeRun idxs l = (fin, true) → fin.length + idxs.length = l.length := by
  intro idxs
  induction idxs with
  | nil =>
    intro l fin h
    simp only [removeRun, Prod.mk.injEq] at h
    simp [h.1]
  | cons i is ih =>
    intro l fin h
    simp only [removeRun] at h
    split at h
    · rename_i hc
      have hlt : (i - 1).toNat < l.length := by omega
      have h1 := ih _ _ h
      have h2 : (l.eraseIdx (i - 1).toNat).length + 1 = l.length :=
        List.length_eraseIdx_add_one hlt
      simp only [List.length_cons]
      omega
    · simp at h

theorem removeRun_sublist : ∀ (idxs : List Int) (l : List Nat),
    (removeRun idxs l).1.Sublist l := by
  intro idxs
  induction idxs with
  | nil =>
    intro l
    exact List.Sublist.refl l
  | cons i is ih =>
    intro l
    simp only [removeRun]
    split
    · exact (ih _).trans (List.eraseIdx_sublist l _)
    · exact List.Sublist.refl l

/-- C9 amended: when a ranges string lists some page index more than once
(duplicate page or overlapping ranges) and every listed occurrence is
still within range at its turn (the descending deletion loop completes),
remove performs one deletion per occurrence without deduplicating, so
some page whose original position was never listed is removed. -/
theorem remove_dup_overshoot (r : Chars) (N : Nat) (ps : List Int)
    (fin : List Nat) (hparse : parseRanges r = some ps)
    (hdup : ps.dedup.length < ps.length)
    (hrun : removeRun (sortDesc ps) (originalPages N) = (fin, true)) :
    ∃ p : Nat, p ∈ originalPages N ∧ p ∉ fin ∧ ¬((p : Int) ∈ ps) := by
  classical
  have hlen : fin.length + ps.length = N := by
    have h := removeRun_length (sortDesc ps) (originalPages N) fin hrun
    rw [(sortDesc_perm ps).length_eq] at h
    simpa [originalPages, List.length_range'] using h
  have hsub : fin.Sublist (originalPages N) := by
    have h := removeRun_sublist (sortDesc ps) (originalPages N)
    rw [hrun] at h
    exact h
  have hnodup : (originalPages N).Nodup := List.nodup_range' 1 N
  have hfinnd : fin.Nodup := hsub.nodup hnodup
  by_contra hcon
  push_neg at hcon
  have hBA : fin.toFinset ⊆ (originalPages N).toFinset := by
    intro x hx
    rw [List.mem_toFinset] at hx ⊢
    exact hsub.subset hx
  have hcardA : (originalPages N).toFinset.card = N := by
    rw [List.toFinset_card_of_nodup hnodup]
    simp [originalPages, List.length_range']
  have hcardB : fin.toFinset.card = fin.length :=
    List.toFinset_card_of_nodup hfinnd
  have hdiffcard : ((originalPages N).toFinset \ fin.toFinset).card = ps.length := by
    rw [Finset.card_sdiff hBA, hcardA, hcardB]
    omega
  have hmapsub : ∀ p ∈ (originalPages N).toFinset \ fin.toFinset,
      (p : Int) ∈ ps.toFinset := by
    intro p hp
    rw [Finset.mem_sdiff, List.mem_toFinset, List.mem_toFinset] at hp
    rw [List.mem_toFinset]
    exact hcon p hp.1 hp.2
  have hle : ((originalPages N).toFinset \ fin.toFinset).card ≤ ps.toFinset.card :=
    Finset.card_le_card_of_injOn (fun p => (p : Int)) hmapsub
      (fun a _ b _ h => Nat.cast_injective h)
  have hdedup : ps.toFinset.card = ps.dedup.length := List.card_toFinset ps
  omega

theorem remove_dup_overshoot_witness :
    parseRanges (lineOf "2-4,3") = some [2, 3, 4, 3]
  ∧ ([2, 3, 4, 3] : List Int).dedup.length < ([2, 3, 4, 3] : List Int).length
  ∧ removeRun (sortDesc [2, 3, 4, 3]) (originalPages 5) = ([1], true)
  ∧ ∃ p : Nat, p ∈ originalPages 5 ∧ p ∉ ([1] : List Nat)
      ∧ ¬((p : Int) ∈ ([2, 3, 4, 3] : List Int)) :=
  ⟨rfl, by decide, rfl,
    remove_dup_overshoot (lineOf "2-4,3") 5 [2, 3, 4, 3] [1] rfl (by decide) rfl⟩

theorem remove_ranges_amended_witness :
    removeCmd (lineOf "3-2,1") 3 = some (List.range' 2 2) :=
  remove_ranges_amended.1 0
